import Mathlib

/-!
Shallow embedding of the decision-policy, training-orchestrator, test and
entry-point logic of `run_classification.py`, together with theorems about
the claims of the specification.  Model outputs (torch tensors of floats)
are embedded as lists of real numbers where a sigmoid transform is involved
and as lists of rationals where only order comparisons occur; stateful
orchestrator code is embedded as explicit state passing.
-/

/- ------------------------------------------------------------------ -/
/- Decision policy: multi-label branches (run_classification.py 83-92
   in `test_loop` and 285-294 in `predict`).                          -/
/- ------------------------------------------------------------------ -/

/-- The sigmoid transform `torch.sigmoid` applied elementwise in the BCE
branch: `sigmoid x = 1 / (1 + exp (-x))`. -/
noncomputable def sigmoid (x : ℝ) : ℝ := 1 / (1 + Real.exp (-x))

/-- The BCE branch of the multi-label decision policy for one example
(one row of logits): `probs = torch.sigmoid(logits); probs = (probs > 0.5).int()`. -/
noncomputable def bce_row (logits : List ℝ) : List Bool :=
  logits.map (fun x => decide ((0.5 : ℝ) < sigmoid x))

/-- The ZLPR branch of the multi-label decision policy for one example:
`probs = (logits > 0).int()` — raw logits thresholded at zero, no sigmoid. -/
noncomputable def zlpr_row (logits : List ℝ) : List Bool :=
  logits.map (fun x => decide ((0 : ℝ) < x))

/-- The multi-label arm of the decision policy, with its error branch:
`BCE` applies sigmoid then thresholds at 0.5, `ZLPR` thresholds raw logits
at 0, and any other `loss_type` raises
`Exception("loss_type must be ZLPR or BCE")`
(run_classification.py lines 84-90 and 286-292). -/
noncomputable def multilabel_decision (loss_type : String) (logits : List (List ℝ)) :
    Except String (List (List Bool)) :=
  if loss_type = "BCE" then Except.ok (logits.map bce_row)
  else if loss_type = "ZLPR" then Except.ok (logits.map zlpr_row)
  else Except.error "loss_type must be ZLPR or BCE"

/- ------------------------------------------------------------------ -/
/- Decision policy: single-label branch (`logits.argmax(dim=-1)`,
   run_classification.py lines 80 and 282).  The framework argmax is
   documented to return the first index attaining the maximum; it is
   embedded as a left-to-right scan that replaces the current best only
   on a strictly greater value.                                       -/
/- ------------------------------------------------------------------ -/

/-- Scan step for the row argmax: walk the remaining list `xs`, where `i` is
the absolute index of the head of `xs`, and `bi`/`bv` are the index and value
of the best element seen so far; a new best is adopted only when strictly
greater, so the first maximum wins. -/
def argmaxAux : List ℚ → ℕ → ℕ → ℚ → ℕ
  | [], _, bi, _ => bi
  | x :: xs, i, bi, bv => if bv < x then argmaxAux xs (i + 1) i x else argmaxAux xs (i + 1) bi bv

/-- Row argmax of the single-label decision policy: index of the first
maximal score of the row (0 on the empty row, which the model never
produces). -/
def argmax : List ℚ → ℕ
  | [] => 0
  | x :: xs => argmaxAux xs 1 0 x

/-- The single-label decision policy over a batch of score rows:
`logits.argmax(dim=-1)`, one predicted class index per example. -/
def single_label_preds (logits : List (List ℚ)) : List ℕ :=
  logits.map argmax

/-- The index `k` is the first index of `row` attaining the row maximum:
it is in range, no entry exceeds the entry at `k`, and every earlier entry
is strictly smaller. -/
def isFirstMax (row : List ℚ) (k : ℕ) : Prop :=
  k < row.length ∧ (∀ j, j < row.length → row.getD j 0 ≤ row.getD k 0) ∧
    ∀ j, j < k → row.getD j 0 < row.getD k 0

/- ------------------------------------------------------------------ -/
/- Checkpoint filenames and the training orchestrator
   (run_classification.py `train`, lines 189-233).                    -/
/- ------------------------------------------------------------------ -/

/-- Round a rational to the nearest integer with ties to even, the rounding
used by Python fixed-point `format` (exact on this rational model of the
nonnegative F1 values that occur). -/
def roundHalfEven (x : ℚ) : ℤ :=
  if x - ⌊x⌋ = 1 / 2 then (if ⌊x⌋ % 2 = 0 then ⌊x⌋ else ⌊x⌋ + 1) else round x

/-- Python `f"{x:0.1f}"` on a nonnegative value: the value rounded to one
decimal digit, printed as integer part, dot, one digit. -/
def formatFixed1 (x : ℚ) : String :=
  toString (roundHalfEven (10 * x) / 10) ++ "." ++ toString (roundHalfEven (10 * x) % 10)

/-- Checkpoint filename built in both branches of `train`
(lines 206-208 and 221-223):
`f"epoch_{epoch+1}_dev_f1_{(100*valid_f1):0.1f}_weights.bin"`. -/
def saveWeightName (epoch : ℕ) (valid_f1 : ℚ) : String :=
  "epoch_" ++ toString (epoch + 1) ++ "_dev_f1_" ++ formatFixed1 (100 * valid_f1) ++ "_weights.bin"

/-- Modelled from the spec claim that filenames carry the F1 percentage at
two-decimal precision: Python `f"{x:0.2f}"` on a nonnegative value, used only
to compare against what `train` actually writes. -/
def formatFixed2 (x : ℚ) : String :=
  toString (roundHalfEven (100 * x) / 100) ++ "." ++
    (if roundHalfEven (100 * x) % 100 < 10 then "0" else "") ++
    toString (roundHalfEven (100 * x) % 100)

/-- Modelled from the spec claim: the checkpoint filename as it would be if
the F1 percentage were formatted with two decimal digits. -/
def twoDecimalName (epoch : ℕ) (valid_f1 : ℚ) : String :=
  "epoch_" ++ toString (epoch + 1) ++ "_dev_f1_" ++ formatFixed2 (100 * valid_f1) ++ "_weights.bin"

/-- The orchestrator state tracked across epochs of `train`: the best dev F1
seen so far (`best_f1`, initialised to `0.0`), the early-stop counter
(`early_stop`, initialised to `args.early_stop`), the checkpoint filenames
saved so far, and the number of `config.json` writes.  The running loss and
the logged metrics touch no decision and are not tracked. -/
structure TrainState where
  best_f1 : ℚ
  early_stop : ℤ
  saved : List String
  config_writes : ℕ
deriving DecidableEq

/-- One epoch of the checkpoint/early-stop logic of `train`
(lines 202-232): only when the counter is positive, the improve branch
(`valid_f1 > best_f1`) updates the best F1 and saves weights and config,
and the other branch decrements the counter and saves weights and config;
when the counter is not positive the epoch changes none of this state. -/
def epochStep (epoch : ℕ) (valid_f1 : ℚ) (s : TrainState) : TrainState :=
  if 0 < s.early_stop then
    if s.best_f1 < valid_f1 then
      { best_f1 := valid_f1
        early_stop := s.early_stop
        saved := s.saved ++ [saveWeightName epoch valid_f1]
        config_writes := s.config_writes + 1 }
    else
      { best_f1 := s.best_f1
        early_stop := s.early_stop - 1
        saved := s.saved ++ [saveWeightName epoch valid_f1]
        config_writes := s.config_writes + 1 }
  else s

/-- The epoch loop of `train` from a given state, driven by the dev-set F1
value of each successive epoch; the loop body never breaks out early. -/
def runEpochsFrom : ℕ → List ℚ → TrainState → TrainState
  | _, [], s => s
  | epoch, f :: fs, s => runEpochsFrom (epoch + 1) fs (epochStep epoch f s)

/-- A whole training run of `train`: `best_f1 = 0.0`, the early-stop counter
at the configured budget, nothing saved yet, then one `epochStep` per epoch
in order. -/
def runTrain (budget : ℤ) (f1s : List ℚ) : TrainState :=
  runEpochsFrom 0 f1s { best_f1 := 0, early_stop := budget, saved := [], config_writes := 0 }

/- ------------------------------------------------------------------ -/
/- The `test` orchestrator (lines 249-255) against the value returned
   by `test_loop` (lines 103-111).                                    -/
/- ------------------------------------------------------------------ -/

/-- The aggregate metrics computed by `test_loop`: accuracy, macro
precision (`prec`), macro recall (`recl`) and macro F1 (`f1`). -/
structure LabelMetrics where
  accuracy : ℚ
  prec : ℚ
  recl : ℚ
  f1 : ℚ

/-- The value `test_loop` returns (lines 103-111): a dict with the single
key `"label"` mapped to the aggregate metrics, embedded as an association
list in insertion order. -/
def test_loop_metrics (m : LabelMetrics) : List (String × LabelMetrics) :=
  [("label", m)]

/-- Python iteration over a dict yields its keys in insertion order. -/
def dictKeys (d : List (String × LabelMetrics)) : List String :=
  d.map Prod.fst

/-- Python tuple unpacking `a, b, c = it`: succeeds exactly when the
iterable yields three values, otherwise raises a `ValueError`. -/
def unpack3 {α : Type} : List α → Except String (α × α × α)
  | [a, b, c] => Except.ok (a, b, c)
  | _ => Except.error "ValueError: the iterable does not yield exactly 3 values"

/-- The per-checkpoint body of `test` (line 252) after loading weights:
`test_acc, test_recall, test_f1 = test_loop(...)` unpacks the returned
metrics dict into three names before logging them. -/
def test_checkpoint_log (m : LabelMetrics) : Except String (String × String × String) :=
  unpack3 (dictKeys (test_loop_metrics m))

/- ------------------------------------------------------------------ -/
/- Per-label loss weights derived at the entry point
   (run_classification.py lines 375-384).                             -/
/- ------------------------------------------------------------------ -/

/-- Maximum of the per-class training counts, `max(train_data_count)`
(0 on the empty list, on which the source never evaluates the maximum). -/
def maxCount (counts : List ℕ) : ℕ :=
  counts.foldr max 0

/-- Per-label loss weights derived from the per-class training counts:
`[max(train_data_count) / item if item != 0 else 0 for item in train_data_count]`,
with exact rational division in place of float division. -/
def label_weights (counts : List ℕ) : List ℚ :=
  counts.map (fun (item : ℕ) =>
    if item ≠ 0 then (Nat.cast (maxCount counts) : ℚ) / (Nat.cast item : ℚ) else 0)

/- ------------------------------------------------------------------ -/
/- Helper lemmas                                                      -/
/- ------------------------------------------------------------------ -/

/-- The sigmoid transform crosses 1/2 exactly at raw score 0. -/
theorem sigmoid_gt_half_iff (x : ℝ) : (0.5 : ℝ) < sigmoid x ↔ 0 < x := by
  have hpos : 0 < 1 + Real.exp (-x) := by positivity
  rw [show (0.5 : ℝ) = 1 / 2 by norm_num]
  unfold sigmoid
  rw [div_lt_div_iff₀ (by norm_num) hpos]
  constructor
  · intro h
    have h1 : Real.exp (-x) < Real.exp 0 := by
      rw [Real.exp_zero]; linarith
    have h2 := Real.exp_lt_exp.mp h1
    linarith
  · intro hx
    have h1 : Real.exp (-x) < Real.exp 0 := Real.exp_lt_exp.mpr (by linarith)
    rw [Real.exp_zero] at h1
    linarith

/- ------------------------------------------------------------------ -/
/- Claim theorems                                                     -/
/- ------------------------------------------------------------------ -/

/-- C1: for the multi-label ZLPR branch of the decision policy (used both
by the evaluation loop and by predict), the predicted-positive label set of
an example is exactly the set of indices whose raw score is strictly
greater than 0; the branch applies no sigmoid. -/
theorem zlpr_positive_set_eq :
    (∀ logits : List (List ℝ),
      multilabel_decision "ZLPR" logits = Except.ok (logits.map zlpr_row)) ∧
      ∀ scores : List ℝ,
        {i : ℕ | i < scores.length ∧ (zlpr_row scores).getD i false = true} =
          {i : ℕ | i < scores.length ∧ 0 < scores.getD i 0} := by
  constructor
  · intro logits
    unfold multilabel_decision
    rw [if_neg (by decide), if_pos rfl]
  · intro scores
    ext i
    simp only [Set.mem_setOf_eq, and_congr_right_iff]
    intro hi
    have hlen : i < (zlpr_row scores).length := by simpa [zlpr_row] using hi
    rw [List.getD_eq_getElem _ _ hlen, List.getD_eq_getElem _ _ hi]
    simp [zlpr_row]

/-- C2: the multi-label BCE branch thresholds `sigmoid score` at 0.5, this
boundary sits exactly at raw score 0, and therefore the BCE rule and the
ZLPR rule produce the same multi-hot prediction on every score vector. -/
theorem bce_rule_eq_zlpr_rule :
    (∀ logits : List (List ℝ),
      multilabel_decision "BCE" logits = Except.ok (logits.map bce_row)) ∧
      (∀ x : ℝ, ((0.5 : ℝ) < sigmoid x ↔ 0 < x)) ∧
      ∀ scores : List ℝ, bce_row scores = zlpr_row scores := by
  refine ⟨fun logits => ?_, sigmoid_gt_half_iff, fun scores => ?_⟩
  · unfold multilabel_decision
    rw [if_pos rfl]
  · unfold bce_row zlpr_row
    refine List.map_congr_left fun a _ => ?_
    exact decide_eq_decide.mpr (sigmoid_gt_half_iff a)

/-- C6: the `test` orchestrator unpacks the metrics value returned by the
evaluation loop — a dict with the single key `"label"` — into three names,
so the unpacking raises a `ValueError` for every metrics value and the
logging line is never reached. -/
theorem test_unpack_always_fails (m : LabelMetrics) :
    test_checkpoint_log m =
      Except.error "ValueError: the iterable does not yield exactly 3 values" := rfl

/-- C7: under multi-label classification the decision policy produces its
fatal error exactly when `loss_type` is neither `"BCE"` nor `"ZLPR"`, and
every error it can produce is the message naming the two valid values. -/
theorem multilabel_decision_error_iff (loss_type : String) (logits : List (List ℝ)) :
    (multilabel_decision loss_type logits = Except.error "loss_type must be ZLPR or BCE" ↔
      (loss_type ≠ "BCE" ∧ loss_type ≠ "ZLPR")) ∧
      ∀ msg, multilabel_decision loss_type logits = Except.error msg →
        msg = "loss_type must be ZLPR or BCE" := by
  unfold multilabel_decision
  split_ifs with h1 h2 <;> constructor
  · simp [h1]
  · intro msg hmsg; simp at hmsg
  · simp [h1, h2]
  · intro msg hmsg; simp at hmsg
  · simp [h1, h2]
  · intro msg hmsg
    simp only [Except.error.injEq] at hmsg
    exact hmsg.symm

/-- Witness for C7: the decision policy rejects the unknown loss type
`"focal"` with the documented message. -/
theorem multilabel_decision_error_app :
    multilabel_decision "focal" [] = Except.error "loss_type must be ZLPR or BCE" :=
  (multilabel_decision_error_iff "focal" []).1.mpr (by decide)

/-- C9: the per-label loss weights have one entry per class, the weight of
a class with training count 0 is 0, and the weight of a class with nonzero
count `c` satisfies `weight * c = max(counts)`, i.e. equals `max(counts)/c`. -/
theorem label_weights_spec (counts : List ℕ) :
    (label_weights counts).length = counts.length ∧
      ∀ i, i < counts.length →
        ((counts.getD i 0 = 0 → (label_weights counts).getD i 0 = 0) ∧
          (counts.getD i 0 ≠ 0 →
            (label_weights counts).getD i 0 * (Nat.cast (counts.getD i 0) : ℚ) =
              (Nat.cast (maxCount counts) : ℚ))) := by
  have hlen : (label_weights counts).length = counts.length := by
    simp [label_weights]
  refine ⟨hlen, fun i hi => ?_⟩
  have hi2 : i < (label_weights counts).length := by rwa [hlen]
  rw [List.getD_eq_getElem _ _ hi2, List.getD_eq_getElem _ _ hi]
  simp only [label_weights, List.getElem_map]
  constructor
  · intro h0
    simp [h0]
  · intro hne
    have hc : (Nat.cast (counts[i]) : ℚ) ≠ 0 := Nat.cast_ne_zero.mpr hne
    simp only [hne, if_pos, ne_eq, not_false_eq_true]
    exact div_mul_cancel₀ _ hc

/-- Witness for C9: on the counts `[2, 0, 4]` the class with count 4
receives weight `max/4` (so weight times count is the maximum 4), applied
through the theorem at index 2. -/
theorem label_weights_spec_app :
    (label_weights [2, 0, 4]).getD 2 0 * (Nat.cast (([2, 0, 4] : List ℕ).getD 2 0) : ℚ) =
      (Nat.cast (maxCount [2, 0, 4]) : ℚ) :=
  ((label_weights_spec [2, 0, 4]).2 2 (by decide)).2 (by decide)

/-- Rounding with ties to even is the identity on integers. -/
theorem roundHalfEven_intCast (n : ℤ) : roundHalfEven (n : ℚ) = n := by
  unfold roundHalfEven
  rw [Int.floor_intCast, if_neg (by norm_num)]
  exact round_intCast n

/-- Rounding with ties to even lands within one half of the input. -/
theorem roundHalfEven_close (x : ℚ) : |((roundHalfEven x : ℤ) : ℚ) - x| ≤ 1 / 2 := by
  unfold roundHalfEven
  split_ifs with h he
  · rw [abs_le]
    constructor <;> linarith
  · push_cast
    rw [abs_le]
    constructor <;> linarith
  · rw [abs_sub_comm]
    exact abs_sub_round x

/-- C8 counterexample: at epoch 1 with dev F1 = 1/2, `train` writes
`epoch_1_dev_f1_50.0_weights.bin` — one decimal digit — which differs from
the name that two-decimal percentage formatting would produce. -/
theorem weight_name_not_two_decimal :
    saveWeightName 0 (1 / 2) = "epoch_1_dev_f1_50.0_weights.bin" ∧
      twoDecimalName 0 (1 / 2) = "epoch_1_dev_f1_50.00_weights.bin" ∧
      saveWeightName 0 (1 / 2) ≠ twoDecimalName 0 (1 / 2) := by
  have h1 : roundHalfEven (10 * (100 * (1 / 2 : ℚ))) = 500 := by
    rw [show (10 : ℚ) * (100 * (1 / 2)) = ((500 : ℤ) : ℚ) by norm_num]
    exact roundHalfEven_intCast 500
  have h2 : roundHalfEven (100 * (100 * (1 / 2 : ℚ))) = 5000 := by
    rw [show (100 : ℚ) * (100 * (1 / 2)) = ((5000 : ℤ) : ℚ) by norm_num]
    exact roundHalfEven_intCast 5000
  have e1 : saveWeightName 0 (1 / 2) = "epoch_1_dev_f1_50.0_weights.bin" := by
    unfold saveWeightName formatFixed1
    rw [h1]
    decide
  have e2 : twoDecimalName 0 (1 / 2) = "epoch_1_dev_f1_50.00_weights.bin" := by
    unfold twoDecimalName formatFixed2
    rw [h2]
    decide
  refine ⟨e1, e2, ?_⟩
  rw [e1, e2]
  decide

/-- C8 amended: every checkpoint filename encodes the (1-based) epoch index
and the dev F1 percentage rounded to one decimal digit: it is of the shape
`epoch_{epoch+1}_dev_f1_{n}.{d}_weights.bin` with a single digit `d`, and
the encoded value `n + d/10` is within 1/20 of the exact percentage. -/
theorem weight_name_one_decimal_encoding (epoch : ℕ) (valid_f1 : ℚ) :
    ∃ n d : ℤ, 0 ≤ d ∧ d < 10 ∧
      saveWeightName epoch valid_f1 =
        "epoch_" ++ toString (epoch + 1) ++ "_dev_f1_" ++
          (toString n ++ "." ++ toString d) ++ "_weights.bin" ∧
      |((n : ℚ) + (d : ℚ) / 10) - 100 * valid_f1| ≤ 1 / 20 := by
  refine ⟨roundHalfEven (10 * (100 * valid_f1)) / 10,
    roundHalfEven (10 * (100 * valid_f1)) % 10,
    Int.emod_nonneg _ (by norm_num), Int.emod_lt_of_pos _ (by norm_num), rfl, ?_⟩
  have hsplit := Int.ediv_add_emod (roundHalfEven (10 * (100 * valid_f1))) 10
  have hclose := roundHalfEven_close (10 * (100 * valid_f1))
  set r : ℤ := roundHalfEven (10 * (100 * valid_f1)) with hr
  have h10 : (r : ℚ) = 10 * ((r / 10 : ℤ) : ℚ) + ((r % 10 : ℤ) : ℚ) := by
    exact_mod_cast hsplit.symm
  rw [abs_le] at hclose ⊢
  constructor <;> linarith

/-- C4 counterexample: with an early-stop budget of 1 and three epochs of
dev F1 `[1/2, 1/2, 1/2]`, the counter is exhausted after epoch 2, and the
third epoch saves neither weights nor config: only 2 checkpoints and 2
config writes exist after the 3-epoch run, so saving is not unconditional. -/
theorem save_skipped_when_counter_exhausted :
    (runTrain 1 [1 / 2, 1 / 2, 1 / 2]).saved.length = 2 ∧
      (runTrain 1 [1 / 2, 1 / 2, 1 / 2]).config_writes = 2 ∧
      ([1 / 2, 1 / 2, 1 / 2] : List ℚ).length = 3 := by
  norm_num [runTrain, runEpochsFrom, epochStep]

/-- C4 amended: in every epoch that begins with a positive early-stop
counter — in both the improve and the not-improve branch — `train` appends
exactly one checkpoint file and writes the config snapshot; an epoch that
begins with an exhausted counter saves nothing. -/
theorem save_both_branches_when_counter_positive (epoch : ℕ) (valid_f1 : ℚ)
    (s : TrainState) (h : 0 < s.early_stop) :
    (epochStep epoch valid_f1 s).saved = s.saved ++ [saveWeightName epoch valid_f1] ∧
      (epochStep epoch valid_f1 s).config_writes = s.config_writes + 1 := by
  unfold epochStep
  rw [if_pos h]
  by_cases himp : s.best_f1 < valid_f1
  · rw [if_pos himp]
    exact ⟨rfl, rfl⟩
  · rw [if_neg himp]
    exact ⟨rfl, rfl⟩

/-- Witness for the amended C4: a concrete epoch with counter 2 appends
its checkpoint name and bumps the config-write count. -/
theorem save_both_branches_when_counter_positive_app :
    (epochStep 0 (1 / 2) ⟨0, 2, [], 0⟩).saved = [] ++ [saveWeightName 0 (1 / 2)] ∧
      (epochStep 0 (1 / 2) ⟨0, 2, [], 0⟩).config_writes = 0 + 1 :=
  save_both_branches_when_counter_positive 0 (1 / 2) ⟨0, 2, [], 0⟩ (by decide)

/-- C5 counterexample: with budget 2 and dev F1 sequence `[1/2, 1/2, 1/2]`,
epoch 1 improves on the initial best F1 of 0, only epochs 2 and 3 decrement,
and the decrement is guarded by the counter being positive, so the counter
ends the run at 0, not at -1. -/
theorem early_stop_counter_final_value :
    (runTrain 2 [1 / 2, 1 / 2, 1 / 2]).early_stop = 0 ∧
      (runTrain 2 [1 / 2, 1 / 2, 1 / 2]).early_stop ≠ -1 := by
  norm_num [runTrain, runEpochsFrom, epochStep]

/-- C5 amended: the counter starts at the configured budget; an epoch that
begins with a positive counter and whose dev F1 does not strictly exceed the
best seen (equality included, the comparison is a strict `>`) decrements the
counter by one; the loop never breaks out early; and on budget 2 with dev F1
sequence `[1/2, 1/2, 1/2]` the run saves a checkpoint in all 3 epochs and
ends with the counter at 0. -/
theorem early_stop_counter_behaviour :
    (∀ (epoch : ℕ) (valid_f1 : ℚ) (s : TrainState), 0 < s.early_stop →
        valid_f1 ≤ s.best_f1 → (epochStep epoch valid_f1 s).early_stop = s.early_stop - 1) ∧
      (runTrain 2 [1 / 2, 1 / 2, 1 / 2]).early_stop = 0 ∧
      (runTrain 2 [1 / 2, 1 / 2, 1 / 2]).saved.length = 3 := by
  refine ⟨fun epoch valid_f1 s h hle => ?_,
    by norm_num [runTrain, runEpochsFrom, epochStep],
    by norm_num [runTrain, runEpochsFrom, epochStep]⟩
  unfold epochStep
  rw [if_pos h, if_neg (not_lt.mpr hle)]

/-- Witness for the amended C5: an epoch with counter 2 and a dev F1 equal
to the best seen decrements the counter to 1. -/
theorem early_stop_counter_behaviour_app :
    (epochStep 0 (1 / 2) ⟨1 / 2, 2, [], 0⟩).early_stop = 2 - 1 :=
  early_stop_counter_behaviour.1 0 (1 / 2) ⟨1 / 2, 2, [], 0⟩ (by decide) (by norm_num)

/-- C10: an epoch that begins with a non-positive early-stop counter leaves
the orchestrator state untouched — no checkpoint, no config write, no best-F1
update, no further decrement — and consequently a run whose counter starts
nonnegative can never drive it negative. -/
theorem exhausted_counter_epoch_noop :
    (∀ (epoch : ℕ) (valid_f1 : ℚ) (s : TrainState), s.early_stop ≤ 0 →
        epochStep epoch valid_f1 s = s) ∧
      (∀ (fs : List ℚ) (epoch : ℕ) (s : TrainState), 0 ≤ s.early_stop →
        0 ≤ (runEpochsFrom epoch fs s).early_stop) ∧
      ∀ (budget : ℤ) (fs : List ℚ), 0 ≤ budget → 0 ≤ (runTrain budget fs).early_stop := by
  have hstep : ∀ (epoch : ℕ) (valid_f1 : ℚ) (s : TrainState), s.early_stop ≤ 0 →
      epochStep epoch valid_f1 s = s := by
    intro epoch valid_f1 s h
    unfold epochStep
    rw [if_neg (not_lt.mpr h)]
  have hpres : ∀ (epoch : ℕ) (valid_f1 : ℚ) (s : TrainState), 0 ≤ s.early_stop →
      0 ≤ (epochStep epoch valid_f1 s).early_stop := by
    intro epoch valid_f1 s h
    unfold epochStep
    split_ifs with h1 h2
    · exact h
    · show 0 ≤ s.early_stop - 1
      omega
    · exact h
  have hrun : ∀ (fs : List ℚ) (epoch : ℕ) (s : TrainState), 0 ≤ s.early_stop →
      0 ≤ (runEpochsFrom epoch fs s).early_stop := by
    intro fs
    induction fs with
    | nil => intro epoch s h; exact h
    | cons f fs ih =>
      intro epoch s h
      exact ih (epoch + 1) (epochStep epoch f s) (hpres epoch f s h)
  exact ⟨hstep, hrun, fun budget fs h => hrun fs 0 _ h⟩

/-- Witness for C10: a concrete epoch starting with counter 0 changes
nothing, and a concrete 1-epoch run from budget 0 keeps the counter at 0. -/
theorem exhausted_counter_epoch_noop_app :
    epochStep 0 (3 / 4) ⟨1 / 2, 0, [], 0⟩ = ⟨1 / 2, 0, [], 0⟩ ∧
      0 ≤ (runTrain 0 [3 / 4]).early_stop :=
  ⟨exhausted_counter_epoch_noop.1 0 (3 / 4) ⟨1 / 2, 0, [], 0⟩ (by decide),
    exhausted_counter_epoch_noop.2.2 0 [3 / 4] (by decide)⟩

/-- Specification of the argmax scan: either no element of the remaining
list beats the carried best (and the carried best index is returned), or the
scan returns the absolute index of the first element that is maximal among
the remaining list and strictly beats the carried best. -/
theorem argmaxAux_spec (xs : List ℚ) : ∀ (i bi : ℕ) (bv : ℚ),
    (argmaxAux xs i bi bv = bi ∧ ∀ k, k < xs.length → xs.getD k 0 ≤ bv) ∨
      (∃ k, k < xs.length ∧ argmaxAux xs i bi bv = i + k ∧ bv < xs.getD k 0 ∧
        (∀ j, j < xs.length → xs.getD j 0 ≤ xs.getD k 0) ∧
        ∀ j, j < k → xs.getD j 0 < xs.getD k 0) := by
  induction xs with
  | nil =>
    intro i bi bv
    left
    refine ⟨rfl, fun k hk => absurd hk (by simp)⟩
  | cons x xs ih =>
    intro i bi bv
    by_cases hx : bv < x
    · have hstep : argmaxAux (x :: xs) i bi bv = argmaxAux xs (i + 1) i x := by
        simp only [argmaxAux]
        rw [if_pos hx]
      rcases ih (i + 1) i x with ⟨heq, hall⟩ | ⟨k, hk, heq, hgt, hall, hfirst⟩
      · right
        refine ⟨0, by simp, ?_, ?_, ?_, ?_⟩
        · rw [hstep, heq]
          omega
        · simpa using hx
        · intro j hj
          cases j with
          | zero => simp
          | succ m =>
            simp only [List.getD_cons_succ, List.getD_cons_zero]
            exact hall m (by simpa using hj)
        · intro j hj
          exact absurd hj (Nat.not_lt_zero j)
      · right
        refine ⟨k + 1, by simpa using hk, ?_, ?_, ?_, ?_⟩
        · rw [hstep, heq]
          omega
        · simp only [List.getD_cons_succ]
          exact lt_trans hx hgt
        · intro j hj
          cases j with
          | zero =>
            simp only [List.getD_cons_zero, List.getD_cons_succ]
            exact le_of_lt hgt
          | succ m =>
            simp only [List.getD_cons_succ]
            exact hall m (by simpa using hj)
        · intro j hj
          cases j with
          | zero =>
            simp only [List.getD_cons_zero, List.getD_cons_succ]
            exact hgt
          | succ m =>
            simp only [List.getD_cons_succ]
            exact hfirst m (by omega)
    · have hstep : argmaxAux (x :: xs) i bi bv = argmaxAux xs (i + 1) bi bv := by
        simp only [argmaxAux]
        rw [if_neg hx]
      have hxle : x ≤ bv := not_lt.mp hx
      rcases ih (i + 1) bi bv with ⟨heq, hall⟩ | ⟨k, hk, heq, hgt, hall, hfirst⟩
      · left
        refine ⟨by rw [hstep, heq], fun k hk => ?_⟩
        cases k with
        | zero => simpa using hxle
        | succ m =>
          simp only [List.getD_cons_succ]
          exact hall m (by simpa using hk)
      · right
        refine ⟨k + 1, by simpa using hk, ?_, ?_, ?_, ?_⟩
        · rw [hstep, heq]
          omega
        · simp only [List.getD_cons_succ]
          exact hgt
        · intro j hj
          cases j with
          | zero =>
            simp only [List.getD_cons_zero, List.getD_cons_succ]
            exact le_trans hxle (le_of_lt hgt)
          | succ m =>
            simp only [List.getD_cons_succ]
            exact hall m (by simpa using hj)
        · intro j hj
          cases j with
          | zero =>
            simp only [List.getD_cons_zero, List.getD_cons_succ]
            exact lt_of_le_of_lt hxle hgt
          | succ m =>
            simp only [List.getD_cons_succ]
            exact hfirst m (by omega)

/-- The row argmax of a nonempty row is the first index attaining the row
maximum. -/
theorem argmax_isFirstMax (row : List ℚ) (hne : row ≠ []) :
    isFirstMax row (argmax row) := by
  cases row with
  | nil => exact absurd rfl hne
  | cons x xs =>
    have hdef : argmax (x :: xs) = argmaxAux xs 1 0 x := rfl
    rcases argmaxAux_spec xs 1 0 x with ⟨heq, hall⟩ | ⟨k, hk, heq, hgt, hall, hfirst⟩
    · refine ⟨by simp [hdef, heq], ?_, ?_⟩
      · intro j hj
        rw [hdef, heq]
        cases j with
        | zero => simp
        | succ m =>
          simp only [List.getD_cons_succ, List.getD_cons_zero]
          exact hall m (by simpa using hj)
      · intro j hj
        rw [hdef, heq] at hj
        exact absurd hj (Nat.not_lt_zero j)
    · have hidx : argmax (x :: xs) = k + 1 := by
        rw [hdef, heq]
        omega
      refine ⟨by simpa [hidx] using hk, ?_, ?_⟩
      · intro j hj
        rw [hidx]
        simp only [List.getD_cons_succ]
        cases j with
        | zero =>
          simp only [List.getD_cons_zero]
          exact le_of_lt hgt
        | succ m =>
          simp only [List.getD_cons_succ]
          exact hall m (by simpa using hj)
      · intro j hj
        rw [hidx] at hj
        rw [hidx]
        simp only [List.getD_cons_succ]
        cases j with
        | zero =>
          simp only [List.getD_cons_zero]
          exact hgt
        | succ m =>
          simp only [List.getD_cons_succ]
          exact hfirst m (by omega)

/-- C3: the single-label decision policy produces exactly one predicted
class per example — the list of predictions has one entry per score row,
the entry for row `i` is the row argmax — and for every nonempty row the
predicted class is the first index attaining the row maximum. -/
theorem single_label_policy_firstmax (logits : List (List ℚ)) :
    (single_label_preds logits).length = logits.length ∧
      (∀ i, i < logits.length →
        (single_label_preds logits).getD i 0 = argmax (logits.getD i [])) ∧
      ∀ row, row ∈ logits → row ≠ [] → isFirstMax row (argmax row) := by
  refine ⟨by simp [single_label_preds], fun i hi => ?_, fun row _ hne => argmax_isFirstMax row hne⟩
  have hi2 : i < (single_label_preds logits).length := by
    simpa [single_label_preds] using hi
  rw [List.getD_eq_getElem _ _ hi2, List.getD_eq_getElem _ _ hi]
  simp [single_label_preds]

/-- Witness for C3: on the score matrix `[[1, 3, 2]]` the policy predicts
class 1, the first index attaining the row maximum 3. -/
theorem single_label_policy_firstmax_app :
    isFirstMax [1, 3, 2] (argmax [1, 3, 2]) :=
  (single_label_policy_firstmax [[1, 3, 2]]).2.2 [1, 3, 2] (by simp) (by simp)
